import Mathlib

/-!
# ClipForge core — shallow embedding and verification

A shallow embedding of the clip-lifecycle core of the ClipForge pipeline
(status state machine, content moderation, quality gates, caption/timing
compiler, speaker assignment, discovery cursor, top-N selection), translated
from the Python sources, with theorems settling the frozen claims.

Modelling conventions:
* Python floats are modelled as exact rationals; timestamps compared as
  strings keep the (code-point lexicographic) string order Python uses.
* SQLite rows become Lean structures; a stage entry point that reads a row,
  branches on external I/O and writes a row becomes a pure function from the
  row and an explicit outcome value to the new row.
* The drawtext/filter string serialisation of the renderer is kept as the
  structured list of caption records it is built from (start, end, text,
  color); the claims only concern those fields.
-/

set_option maxRecDepth 4000

/-! ## Clip state machine (src/schemas.py) -/

inductive ClipStatus
  | DISCOVERED
  | DOWNLOADED
  | TRANSCRIBED
  | DECIDED
  | RENDERED
  | PACKAGED
  | FAILED
deriving DecidableEq, Repr

open ClipStatus

/-- VALID_TRANSITIONS from src/schemas.py lines 20-28. -/
def VALID_TRANSITIONS : ClipStatus → List ClipStatus
  | DISCOVERED => [DOWNLOADED, FAILED]
  | DOWNLOADED => [TRANSCRIBED, FAILED]
  | TRANSCRIBED => [DECIDED, FAILED]
  | DECIDED => [RENDERED, FAILED]
  | RENDERED => [PACKAGED, FAILED]
  | PACKAGED => []
  | FAILED => []

/-! ## A small regex engine

The moderation pre-filter (src/src/moderation/content_mod.py) scans the
lowercased transcript with `re.search` over three fixed pattern lists. The
patterns use only: literal characters, the classes `[-_]`, the any-char dot
(which in `re` matches anything except a newline), alternation, `?`, `*`,
`+`, and the word-boundary anchor `\x5cb`, which in every pattern occurs
only at the start of the whole pattern or at the end of a match. We embed
them with a Brzozowski-derivative matcher; a pattern is a core regex plus
two booleans saying whether a word boundary is required at the start and at
the end of the match. Word characters are the ASCII `[a-zA-Z0-9_]` (the
embedded texts are ASCII). -/

inductive Re
  | emp
  | eps
  | chr (c : Char)
  | dot
  | cls (cs : List Char)
  | alt (a b : Re)
  | cat (a b : Re)
  | star (a : Re)
deriving DecidableEq, Repr

def Re.nullable : Re → Bool
  | .emp => false
  | .eps => true
  | .chr _ => false
  | .dot => false
  | .cls _ => false
  | .alt a b => a.nullable || b.nullable
  | .cat a b => a.nullable && b.nullable
  | .star _ => true

/-- Smart alternation: drops the empty regex so that dead derivatives
collapse to `Re.emp` syntactically. -/
def Re.salt : Re → Re → Re
  | .emp, b => b
  | a, .emp => a
  | a, b => .alt a b

/-- Smart concatenation. -/
def Re.scat : Re → Re → Re
  | .emp, _ => .emp
  | _, .emp => .emp
  | .eps, b => b
  | a, .eps => a
  | a, b => .cat a b

/-- Brzozowski derivative with respect to one character. -/
def Re.deriv : Re → Char → Re
  | .emp, _ => .emp
  | .eps, _ => .emp
  | .chr c, x => if x = c then .eps else .emp
  | .dot, x => if x = '\n' then .emp else .eps
  | .cls cs, x => if cs.contains x then .eps else .emp
  | .alt a b, x => Re.salt (a.deriv x) (b.deriv x)
  | .cat a b, x =>
      if a.nullable then Re.salt (Re.scat (a.deriv x) b) (b.deriv x)
      else Re.scat (a.deriv x) b
  | .star a, x => Re.scat (a.deriv x) (.star a)

/-- ASCII word character, as used by the boundary anchor on these texts. -/
def isWordChar (c : Char) : Bool :=
  ('a' ≤ c && c ≤ 'z') || ('A' ≤ c && c ≤ 'Z') || ('0' ≤ c && c ≤ '9') || c = '_'

/-- Word boundary between two adjacent positions (`none` = outside text). -/
def bnd (a b : Option Char) : Bool :=
  (match a with | none => false | some c => isWordChar c)
    != (match b with | none => false | some c => isWordChar c)

/-- Does some prefix of `rest` match `r`, ending at a word boundary when
`rB` is set? `prev` is the character just before the current position. -/
def matchHere (r : Re) (rB : Bool) (prev : Option Char) : List Char → Bool
  | [] => r.nullable && (!rB || bnd prev none)
  | c :: cs =>
      (r.nullable && (!rB || bnd prev (some c)))
        || (let d := r.deriv c
            if d = .emp then false else matchHere d rB (some c) cs)

/-- A compiled pattern: a core regex with its two boundary requirements. -/
structure Pat where
  lB : Bool
  core : Re
  rB : Bool
deriving Repr

/-- `re.search`: try the match at every position of the text. -/
def scanPat (p : Pat) (prev : Option Char) : List Char → Bool
  | [] => (!p.lB || bnd prev none) && matchHere p.core p.rB prev []
  | c :: cs =>
      ((!p.lB || bnd prev (some c)) && matchHere p.core p.rB prev (c :: cs))
        || scanPat p (some c) cs

def searchPat (p : Pat) (s : String) : Bool :=
  scanPat p none s.data

def anyPat (ps : List Pat) (s : String) : Bool :=
  ps.any (fun p => searchPat p s)

/-! ## Pattern tables (src/src/moderation/content_mod.py lines 20-88)

Helper constructors for writing the patterns down. -/

def rstr (s : String) : Re := s.data.foldr (fun c acc => Re.cat (Re.chr c) acc) Re.eps

def rcat (l : List Re) : Re := l.foldr Re.cat Re.eps

def ralt : List Re → Re
  | [] => Re.emp
  | r :: rs => rs.foldl Re.alt r

def ropt (r : Re) : Re := Re.alt Re.eps r

def rplus (r : Re) : Re := Re.cat r (Re.star r)

/-- The class `[-_]`. -/
def dashes : Re := Re.cls ['-', '_']

def dStar : Re := Re.star dashes

def dPlus : Re := rplus dashes

/-- A pattern wrapped in word boundaries on both sides. -/
def wb (core : Re) : Pat := { lB := true, core := core, rB := true }

/-- SLUR_PATTERNS (content_mod.py lines 20-29). -/
def SLUR_PATTERNS : List Pat := [
  wb (rcat [rstr "n", dPlus, ralt [rstr "i", rstr "1"], rstr "gg",
    ralt [rstr "a", rstr "er", rcat [rstr "a", ropt (rstr "h")],
      rcat [rstr "u", ropt (rstr "h")]], ropt (rstr "s")]),
  wb (rcat [rstr "f", dStar, rstr "a", dStar, rstr "g",
    ropt (rcat [rstr "g", dStar,
      ralt [rcat [rstr "o", dStar, rstr "t"], rcat [rstr "i", dStar, rstr "t"]]]),
    ropt (rstr "s")]),
  wb (rcat [rstr "r", dStar, rstr "e", dStar, rstr "t", dStar, rstr "a", dStar,
    rstr "r", dStar, rstr "d", ropt (rstr "ed")]),
  wb (rcat [rstr "k", dStar, rstr "i", dStar, rstr "k", dStar, rstr "e", dStar,
    ropt (rstr "s")]),
  wb (rcat [rstr "s", dStar, rstr "p", dStar, rstr "i", dStar, rstr "c", dStar,
    ropt (rstr "s")]),
  wb (rcat [rstr "ch", dStar, rstr "i", dStar, rstr "n", dStar, rstr "k", dStar,
    ropt (rstr "s")]),
  wb (rcat [rstr "tr", dStar, rstr "a", dStar, rstr "nn",
    ralt [rstr "y", rstr "ie"], ropt (rstr "s")]),
  wb (rcat [rstr "w", dStar, rstr "e", dStar, rstr "t", dStar, rstr "b", dStar,
    rstr "a", dStar, rstr "c", dStar, rstr "k", dStar, ropt (rstr "s")])]

/-- GAMBLING_PATTERNS (content_mod.py lines 32-40). The pattern
`\x5cb(stake\x2ecom|stake\x5cb)` is split into its two alternatives, the
first without a trailing boundary, which preserves re.search existence. -/
def GAMBLING_PATTERNS : List Pat := [
  wb (ralt [Re.cat (rstr "slot") (ropt (rstr "s")),
    rcat [rstr "slot", ropt Re.dot, rstr "machine"]]),
  wb (ralt [rstr "blackjack", rstr "roulette", rstr "baccarat", rstr "craps"]),
  wb (ralt [rstr "casino", rstr "gambling", rstr "gamble", rstr "wagering"]),
  { lB := true, core := rcat [rstr "stake", Re.chr '.', rstr "com"], rB := false },
  wb (rstr "stake"),
  wb (ralt [rcat [rstr "kick", Re.star Re.dot, rstr "sponsor"],
    rcat [rstr "sponsored", Re.star Re.dot, rstr "gambling"]]),
  wb (ralt [rcat [rstr "house", ropt Re.dot, rstr "edge"], rstr "jackpot",
    rcat [rstr "big", ropt Re.dot, rstr "win"],
    rcat [rstr "max", ropt Re.dot, rstr "bet"]]),
  wb (rcat [rstr "online", ropt Re.dot, rstr "poker"])]

/-- SEXUAL_EXPLICIT_PATTERNS (content_mod.py lines 43-53). -/
def SEXUAL_EXPLICIT_PATTERNS : List Pat := [
  wb (ralt [rstr "porn", rstr "pornhub", rstr "onlyfans", rstr "xxx", rstr "hentai"]),
  wb (ralt [rcat [rstr "blow", ropt Re.dot, rstr "job"],
    rcat [rstr "hand", ropt Re.dot, rstr "job"],
    rcat [rstr "rim", ropt Re.dot, rstr "job"]]),
  wb (ralt [rstr "orgasm",
    rcat [rstr "cum", ropt (ralt [rstr "ming", rstr "shot"])],
    rcat [rstr "jerk", ropt (rstr "ing"), ropt Re.dot, rstr "off"],
    rstr "masturb"]),
  wb (ralt [rstr "anal", rstr "dildo", rstr "vibrator",
    rcat [rstr "butt", ropt Re.dot, rstr "plug"]]),
  wb (ralt [rstr "nude", rstr "naked", rstr "tits", rstr "boobs", rstr "nipple"]),
  wb (ralt [rcat [rstr "sex", ropt Re.dot, rstr "tape"],
    rcat [rstr "sex", ropt Re.dot, rstr "act"], rstr "intercourse"]),
  wb (ralt [rstr "erection", rstr "penis", rstr "vagina",
    Re.cat (rstr "genital") (ropt (rstr "s"))]),
  wb (ralt [rstr "fetish", rstr "bdsm", rstr "bondage", rstr "dominatrix"]),
  wb (ralt [rstr "pedophile", rstr "pedo", rstr "grooming", rstr "minor"])]

/-- BLEEP_WORDS (content_mod.py lines 62-80). -/
def BLEEP_WORDS : List String := [
  "fuck", "fucking", "fucked", "fucker", "fuckin", "fucks", "motherfucker",
  "motherfucking", "motherfuckers",
  "shit", "shitting", "shitty", "bullshit", "horseshit",
  "bitch", "bitches", "bitching", "bitchass",
  "ass", "asshole", "assholes", "dumbass", "jackass", "badass",
  "dick", "dicks", "dickhead",
  "pussy", "pussies",
  "cock", "cocks", "cocksucker",
  "damn", "goddamn", "goddammit",
  "bastard", "bastards",
  "whore", "whores",
  "cunt", "cunts",
  "nigga", "niggas", "nigger", "niggers",
  "faggot", "faggots", "fag", "fags",
  "retard", "retarded", "retards"]

def MAX_BLEEP_WORDS : Nat := 8

/-- 0.12, the Python float literal modelled as an exact rational. -/
def MAX_PROFANITY_DENSITY : ℚ := 12 / 100

/-! ## The lexical pre-filter (content_mod.py lines 91-130) -/

/-- Lowercasing (ASCII, which covers the embedded texts). -/
def pyLower (s : String) : String := String.mk (s.data.map Char.toLower)

/-- The characters Python str.split splits on (unicode whitespace). -/
def pySpaceChars : List Char := [' ', '\t', '\n', '\x0b', '\x0c', '\r',
  '\x1c', '\x1d', '\x1e', '\x1f', '\x85', '\xa0', ' ',
  ' ', ' ', ' ', ' ', ' ', ' ', ' ',
  ' ', ' ', ' ', ' ', ' ', ' ', ' ',
  ' ', '　']

def isPySpace (c : Char) : Bool := pySpaceChars.contains c

def splitWsGo (cur : List Char) : List Char → List String
  | [] => if cur.isEmpty then [] else [String.mk cur.reverse]
  | c :: cs =>
      if isPySpace c then
        if cur.isEmpty then splitWsGo [] cs
        else String.mk cur.reverse :: splitWsGo [] cs
      else splitWsGo (c :: cur) cs

/-- Python str.split with no argument: split on whitespace runs. -/
def pySplit (s : String) : List String := splitWsGo [] s.data

/-- Strip punctuation for matching: lowercase, then keep only a-z
(content_mod.py lines 128-130). -/
def _clean_word (word : String) : String :=
  String.mk ((pyLower word).data.filter (fun c => 'a' ≤ c && c ≤ 'z'))

/-- Round a rational to the nearest integer, ties to even (Python format
rounding). -/
def roundHalfEven (q : ℚ) : ℤ :=
  let f := ⌊q⌋
  let r := q - f
  if r < 1 / 2 then f else if 1 / 2 < r then f + 1
  else if f % 2 = 0 then f else f + 1

/-- Python `.0%` formatting of the density. -/
def fmtPct (q : ℚ) : String := toString (roundHalfEven (q * 100)) ++ "%"

/-- Number of bleep-worthy words of a word list. -/
def bleepCount (words : List String) : Nat :=
  (words.filter (fun w => BLEEP_WORDS.contains (_clean_word w))).length

/-- content_pre_filter (content_mod.py lines 91-125): returns
(passed, reject_reason). -/
def content_pre_filter (full_text : String) : Bool × String :=
  let text_lower := pyLower full_text
  if anyPat SLUR_PATTERNS text_lower then (false, "hard_reject:slur_detected")
  else if anyPat GAMBLING_PATTERNS text_lower then (false, "hard_reject:gambling_content")
  else if anyPat SEXUAL_EXPLICIT_PATTERNS text_lower then
    (false, "hard_reject:explicit_sexual_content")
  else
    let words := pySplit text_lower
    match words with
    | [] => (true, "")
    | _ :: _ =>
      let bleep_count := bleepCount words
      if bleep_count > MAX_BLEEP_WORDS then
        (false, "hard_reject:too_many_profanities(" ++ toString bleep_count ++ ")")
      else
        let density : ℚ := (bleep_count : ℚ) / (words.length : ℚ)
        if density > MAX_PROFANITY_DENSITY then
          (false, "hard_reject:profanity_density(" ++ fmtPct density ++ ")")
        else (true, "")

/-! ## Transcripts, profile rules, quality gates
(src/src/transcribe/transcriber.py) -/

/-- A transcript segment; the Python dict key `end` is the field `stop`
(`end` is a Lean keyword). -/
structure TSeg where
  start : ℚ
  stop : ℚ
  text : String
deriving DecidableEq, Repr

/-- A word-level timestamp entry; `stop` is the dict key `end`. -/
structure Word where
  start : ℚ
  stop : ℚ
  word : String
deriving DecidableEq, Repr

structure Transcript where
  segments : List TSeg
  words : List Word
  full_text : String
  duration : ℚ
deriving DecidableEq, Repr

/-- ProfileRules (src/schemas.py lines 32-48); only the fields the gates and
the caption compiler read. length_band_sec is the two-element list
[length_band_min, length_band_max]. -/
structure ProfileRules where
  hook_max_delay_sec : ℚ := 2
  silence_ratio_max : ℚ := 20 / 100
  length_band_min : ℤ := 20
  length_band_max : ℤ := 40
  caption_max_words : Nat := 3
deriving DecidableEq, Repr

/-- Python `.1f` formatting (non-negative inputs here). -/
def fmt1 (q : ℚ) : String :=
  let n := roundHalfEven (q * 10)
  toString (n / 10) ++ "." ++ toString (n % 10)

/-- Python `.0f` formatting. -/
def fmt0 (q : ℚ) : String := toString (roundHalfEven q)

/-- gate_hook (transcriber.py lines 67-79). -/
def gate_hook (t : Transcript) (rules : ProfileRules) : Bool × String :=
  match t.segments with
  | [] => (false, "no_speech_detected")
  | first :: _ =>
      if first.start > rules.hook_max_delay_sec then
        (false, "hook_too_late:" ++ fmt1 first.start ++ "s>(max "
          ++ toString rules.hook_max_delay_sec ++ "s)")
      else (true, "")

/-- gate_silence (transcriber.py lines 82-99). -/
def gate_silence (t : Transcript) (rules : ProfileRules) : Bool × String :=
  if t.duration ≤ 0 then (false, "zero_duration")
  else
    let speech_duration := (t.segments.map (fun s => s.stop - s.start)).sum
    let silence_ratio := 1 - speech_duration / t.duration
    if silence_ratio > rules.silence_ratio_max + 1 / 1000 then
      (false, "too_silent:" ++ fmtPct silence_ratio ++ ">(max "
        ++ fmtPct rules.silence_ratio_max ++ ")")
    else (true, "")

/-- gate_length (transcriber.py lines 102-117). -/
def gate_length (t : Transcript) (rules : ProfileRules) : Bool × String :=
  let dur := t.duration
  let min_len := rules.length_band_min
  let max_len := rules.length_band_max
  if dur < (min_len : ℚ) then
    (false, "too_short:" ++ fmt0 dur ++ "s<(min " ++ toString min_len ++ "s)")
  else if dur > (max_len : ℚ) && dur > ((max_len : ℚ) * 3) then
    (false, "way_too_long:" ++ fmt0 dur ++ "s>(max " ++ toString (max_len * 3) ++ "s)")
  else (true, "")

/-- run_quality_gates (transcriber.py lines 120-133): fixed order, first
failure wins. -/
def run_quality_gates (t : Transcript) (rules : ProfileRules) : Bool × String :=
  let h := gate_hook t rules
  if !h.1 then h
  else
    let s := gate_silence t rules
    if !s.1 then s
    else
      let l := gate_length t rules
      if !l.1 then l
      else (true, "")

/-! ## Stage entry points as row transformers

Each Python stage entry point selects the clip row only when its status
equals the expected input status (no row -> warning and return False with
the row untouched), performs its side effect, and writes the new status,
artifact paths and fail_reason. The side effect results are passed in as
explicit outcome values. -/

/-- The clip row fields the stages read and write. -/
structure Clip where
  status : ClipStatus
  viral_score : Option ℤ := none
  fail_reason : Option String := none
  paths : List (String × String) := []
deriving DecidableEq, Repr

/-- Python dict assignment paths[k] = v. -/
def setPath (ps : List (String × String)) (k v : String) : List (String × String) :=
  ps.filter (fun kv => kv.1 ≠ k) ++ [(k, v)]

/-- download_clip (src/downloader.py lines 76-124): outcome is the local
path when the media fetch succeeded. -/
def download_clip (fetched : Option String) (c : Clip) : Clip :=
  if c.status = DISCOVERED then
    match fetched with
    | some p => { c with status := DOWNLOADED, paths := setPath c.paths "source" p }
    | none => { c with status := FAILED, fail_reason := some "download_failed" }
  else c

inductive TranscribeOutcome
  | sourceMissing
  | transcribeError (e : String)
  | ok (t : Transcript)
deriving Repr

/-- transcribe_clip (transcriber.py lines 138-219). -/
def transcribe_clip (rules : ProfileRules) (o : TranscribeOutcome) (c : Clip) : Clip :=
  if c.status = DOWNLOADED then
    match o with
    | .sourceMissing => { c with status := FAILED, fail_reason := some "source_missing" }
    | .transcribeError e =>
        { c with status := FAILED, fail_reason := some ("transcription_error:" ++ e) }
    | .ok t =>
        let paths := setPath c.paths "transcript" "transcript.json"
        let g := run_quality_gates t rules
        if g.1 then { c with status := TRANSCRIBED, paths := paths }
        else { c with status := FAILED, fail_reason := some g.2, paths := paths }
  else c

/-- The fields decide_clip reads from the parsed LLM JSON; each is `none`
when the key is absent (the Python code reads them with .get defaults). -/
structure LlmResp where
  content_safe : Option Bool := none
  content_flag : Option String := none
  viral_score : Option ℤ := none
  build_error : Option String := none
deriving Repr

structure DecideEnv where
  transcript : Option Transcript := none
  llm : Option LlmResp := none
deriving Repr

/-- decide_clip (src/src/decide/decider.py lines 242-366). -/
def decide_clip (env : DecideEnv) (c : Clip) : Clip :=
  if c.status = TRANSCRIBED then
    match env.transcript with
    | none => { c with status := FAILED, fail_reason := some "transcript_missing" }
    | some t =>
      let pf := content_pre_filter t.full_text
      if !pf.1 then { c with status := FAILED, fail_reason := some pf.2 }
      else
        match env.llm with
        | none => { c with status := FAILED, fail_reason := some "llm_call_failed" }
        | some r =>
          if r.content_safe.getD true = false then
            { c with
                status := FAILED
                fail_reason := some ("content_unsafe:" ++ r.content_flag.getD "flagged_by_llm") }
          else
            let vs := r.viral_score.getD 0
            if vs < 3 then
              { c with
                  status := FAILED
                  fail_reason := some ("low_viral_score:" ++ toString vs) }
            else
              match r.build_error with
              | some e =>
                  { c with
                      status := FAILED
                      fail_reason := some ("edit_decision_invalid:" ++ e) }
              | none =>
                  { c with
                      status := DECIDED
                      viral_score := some vs
                      paths := setPath c.paths "edit_decision" "edit_decision.json" }
  else c

inductive RenderOutcome
  | sourceMissing
  | decisionMissing
  | allAttemptsFailed
  | outputInvalid
  | rendered (path : String)
deriving Repr

/-- render_clip (src/src/render/renderer.py lines 307-591): a missing source
or edit decision returns False with no row write; a render failure after all
ffmpeg fallbacks writes FAILED render_failed; an undersized output writes
FAILED render_output_invalid. -/
def render_clip (o : RenderOutcome) (c : Clip) : Clip :=
  if c.status = DECIDED then
    match o with
    | .sourceMissing => c
    | .decisionMissing => c
    | .allAttemptsFailed => { c with status := FAILED, fail_reason := some "render_failed" }
    | .outputInvalid =>
        { c with status := FAILED, fail_reason := some "render_output_invalid" }
    | .rendered p => { c with status := RENDERED, paths := setPath c.paths "rendered" p }
  else c

inductive PackageOutcome
  | renderedMissing
  | packaged (packDir : String)
deriving Repr

/-- package_clip (src/src/package/packager.py lines 33-155): a missing
rendered file returns False with no row write. -/
def package_clip (o : PackageOutcome) (c : Clip) : Clip :=
  if c.status = RENDERED then
    match o with
    | .renderedMissing => c
    | .packaged d =>
        { c with status := PACKAGED, paths := setPath c.paths "publish_pack" d }
  else c

/-- One invocation of a stage entry point with its external outcome. -/
inductive StageCall
  | download (fetched : Option String)
  | transcribe (rules : ProfileRules) (o : TranscribeOutcome)
  | decide (env : DecideEnv)
  | render (o : RenderOutcome)
  | package (o : PackageOutcome)

def runStage : StageCall → Clip → Clip
  | .download f => download_clip f
  | .transcribe rules o => transcribe_clip rules o
  | .decide env => decide_clip env
  | .render o => render_clip o
  | .package o => package_clip o

/-- The stored status each stage expects as its input. -/
def expectedStatus : StageCall → ClipStatus
  | .download _ => DISCOVERED
  | .transcribe _ _ => DOWNLOADED
  | .decide _ => TRANSCRIBED
  | .render _ => DECIDED
  | .package _ => RENDERED

/-! ## Speaker colors (src/src/render/renderer.py lines 38-53) -/

def SPEAKER_COLORS : List String := ["yellow", "cyan", "#FF69B4", "#00FF7F"]

def pyDigit (c : Char) : Option Nat :=
  if '0' ≤ c ∧ c ≤ '9' then some (c.toNat - '0'.toNat) else none

def parseDigitsGo (acc : Nat) : List Char → Option Nat
  | [] => some acc
  | '_' :: c :: cs =>
      match pyDigit c with
      | some d => parseDigitsGo (acc * 10 + d) cs
      | none => none
  | c :: cs =>
      match pyDigit c with
      | some d => parseDigitsGo (acc * 10 + d) cs
      | none => none

def parseDigitsStart : List Char → Option Nat
  | [] => none
  | c :: cs =>
      match pyDigit c with
      | some d => parseDigitsGo d cs
      | none => none

/-- Python int(str): strip whitespace, optional sign, digits (with single
underscores between digits). -/
def pyInt (s : String) : Option ℤ :=
  let t := ((s.data.dropWhile isPySpace).reverse.dropWhile isPySpace).reverse
  match t with
  | '+' :: rest => (parseDigitsStart rest).map (fun n => (n : ℤ))
  | '-' :: rest => (parseDigitsStart rest).map (fun n => -(n : ℤ))
  | rest => (parseDigitsStart rest).map (fun n => (n : ℤ))

/-- Python speaker_id.split("_")[-1]: the text after the last underscore
(the whole string when there is none). -/
def afterLastUnderscore (s : String) : String :=
  String.mk ((s.data.reverse.takeWhile (fun c => c ≠ '_')).reverse)

/-- _speaker_color (renderer.py lines 47-53). Python never hits an
IndexError: int % 4 lands in [0, 4) (proved below), so the getD default is
unreachable; a failed int() parse returns SPEAKER_COLORS[0]. -/
def _speaker_color (speaker_id : String) : String :=
  match pyInt (afterLastUnderscore speaker_id) with
  | some idx => SPEAKER_COLORS.getD ((idx % (SPEAKER_COLORS.length : ℤ)).toNat) "yellow"
  | none => SPEAKER_COLORS.getD 0 "yellow"

/-! ## Speaker assignment (src/src/render/diarize.py lines 113-157) -/

/-- A diarization turn; `stop` is the dict key `end`. -/
structure Turn where
  start : ℚ
  stop : ℚ
  speaker : String
deriving DecidableEq, Repr

/-- A transcript word carrying the optional `speaker` key the assignment
adds (`none` = the dict has no such key). -/
structure SWord where
  start : ℚ
  stop : ℚ
  word : String
  speaker : Option String := none
deriving DecidableEq, Repr

def overlapDur (w : SWord) (t : Turn) : ℚ :=
  max 0 (min w.stop t.stop - max w.start t.start)

/-- The inner for-loop body over diarization segments: state is
(best_speaker, best_overlap). The midpoint check runs after the possible
update, while best_overlap is still 0. -/
def speakerStep (w : SWord) (mid : ℚ) (s : String × ℚ) (t : Turn) : String × ℚ :=
  let ov := overlapDur w t
  let s1 := if ov > s.2 then (t.speaker, ov) else s
  if s1.2 = 0 ∧ t.start ≤ mid ∧ mid ≤ t.stop then (t.speaker, s1.2) else s1

/-- assign_speakers_to_words (diarize.py lines 113-157). Words outside the
edit window are skipped (left unchanged); with no diarization data every
word gets the default speaker. -/
def assign_speakers_to_words (words : List SWord) (diarization_segments : List Turn)
    (segment_start segment_stop : ℚ) : List SWord :=
  match diarization_segments with
  | [] => words.map (fun w => { w with speaker := some "SPEAKER_00" })
  | _ :: _ =>
      words.map (fun w =>
        if w.stop ≤ segment_start ∨ w.start ≥ segment_stop then w
        else
          let word_mid := (w.start + w.stop) / 2
          let st := diarization_segments.foldl (speakerStep w word_mid) ("SPEAKER_00", 0)
          { w with speaker := some st.1 })

/-! ## Caption compiler (renderer.py lines 112-223)

The drawtext serialisation (font, position, ffmpeg escaping) is kept as the
structured caption record it is generated from; the claims concern the
timing fields and the text/color selection. -/

structure Segment where
  start : ℚ
  stop : ℚ
deriving DecidableEq, Repr

structure Caption where
  cstart : ℚ
  cstop : ℚ
  text : String
  color : String
deriving DecidableEq, Repr

def TAIL_PAD : ℚ := 15 / 100

/-- _censor_word (renderer.py lines 105-109). -/
def _censor_word (word : String) : String :=
  if BLEEP_WORDS.contains (_clean_word word) then "[BLEEP]" else word

def pyUpper (s : String) : String := String.mk (s.data.map Char.toUpper)

/-- Words overlapping the chosen segment (renderer.py lines 134-137). -/
def filterSegWords (words : List SWord) (seg : Segment) : List SWord :=
  words.filter (fun w => w.stop > seg.start ∧ w.start < seg.stop)

/-- Consecutive chunks of k elements: the loop
`for i in range(0, len(seg_words), max_words)` (k = 0 would raise in
Python). Fuel-based recursion; fuel l.length is enough since every step
with k at least 1 consumes at least one element. -/
def chunksOfAux {a : Type} (fuel : Nat) (k : Nat) : List a → List (List a)
  | [] => []
  | x :: xs =>
      match fuel with
      | 0 => []
      | fuel + 1 => (x :: xs).take k :: chunksOfAux fuel k ((x :: xs).drop k)

def chunksOf {a : Type} (k : Nat) (l : List a) : List (List a) :=
  if k = 0 then [] else chunksOfAux l.length k l

def headStart (ch : List SWord) : ℚ :=
  match ch with
  | [] => 0
  | w :: _ => w.start

def lastStop (ch : List SWord) : ℚ :=
  match ch with
  | [] => 0
  | l => (l.getLast? ).elim 0 (fun w => w.stop)

def chunkText (ch : List SWord) : String :=
  pyUpper (String.intercalate " " (ch.map (fun w => _censor_word w.word)))

def chunkSpeaker (ch : List SWord) : String :=
  match ch with
  | [] => "SPEAKER_00"
  | w :: _ => w.speaker.getD "SPEAKER_00"

/-- The per-chunk interval arithmetic of renderer.py lines 138-172, with the
clamp of each chunk end to the start of the next chunk. -/
def buildChunkCaptions (seg : Segment) : List (List SWord) → List Caption
  | [] => []
  | ch :: rest =>
      let c_start := max 0 (headStart ch - seg.start)
      let c_end0 := lastStop ch - seg.start + TAIL_PAD
      let c_end1 := max (c_start + 1 / 10) c_end0
      let c_end :=
        match rest with
        | [] => c_end1
        | ch2 :: _ => min c_end1 (headStart ch2 - seg.start)
      { cstart := c_start, cstop := c_end, text := chunkText ch,
        color := _speaker_color (chunkSpeaker ch) } :: buildChunkCaptions seg rest

/-- The word-level caption path (renderer.py lines 130-172). -/
def buildWordCaptions (words : List SWord) (seg : Segment) (max_words : Nat) : List Caption :=
  buildChunkCaptions seg (chunksOf max_words (filterSegWords words seg))

/-- Python str.strip(). -/
def pyStrip (s : String) : String :=
  String.mk (((s.data.dropWhile isPySpace).reverse.dropWhile isPySpace).reverse)

/-- The segment-level fallback path (renderer.py lines 174-221): chunks are
spread evenly inside each transcript segment. -/
def buildFallbackCaptions (transcript : Transcript) (seg : Segment) (max_words : Nat) :
    List Caption :=
  (transcript.segments.map (fun s =>
    if s.stop ≤ seg.start ∨ s.start ≥ seg.stop then []
    else
      let seg_start := max s.start seg.start
      let seg_stop := min s.stop seg.stop
      let rel_start := seg_start - seg.start
      let rel_stop := seg_stop - seg.start
      let text := pyStrip s.text
      if text = "" then []
      else
        let ws := pySplit text
        match ws with
        | [] => []
        | _ :: _ =>
          let censored := ws.map _censor_word
          let chunks := (chunksOf max_words censored).map (String.intercalate " ")
          match chunks with
          | [] => []
          | _ :: _ =>
            let chunk_duration := (rel_stop - rel_start) / (chunks.length : ℚ)
            chunks.enum.map (fun ci =>
              { cstart := rel_start + (ci.1 : ℚ) * chunk_duration
                cstop := rel_start + ((ci.1 : ℚ) + 1) * chunk_duration
                text := pyUpper ci.2, color := "yellow" }))).flatten

/-- _build_caption_filters (renderer.py lines 112-223): word-level path when
the transcript has word timestamps (speaker-annotated words when non-empty),
segment-level fallback otherwise. -/
def _build_caption_filters (transcript : Transcript) (seg : Segment) (max_words : Nat)
    (speaker_words : Option (List SWord)) : List Caption :=
  if transcript.words ≠ [] then
    let words :=
      match speaker_words with
      | some sw =>
          if sw ≠ [] then sw
          else transcript.words.map (fun w =>
            { start := w.start, stop := w.stop, word := w.word, speaker := none })
      | none => transcript.words.map (fun w =>
          { start := w.start, stop := w.stop, word := w.word, speaker := none })
    buildWordCaptions words seg max_words
  else buildFallbackCaptions transcript seg max_words

/-! ## Discovery: idempotent insert and the cursor
(src/src/discovery/discover.py lines 83-128, src/src/db/database.py) -/

/-- The clip row fields discovery inserts; UNIQUE(platform, clip_id) is the
schema uniqueness constraint (database.py line 51). -/
structure ClipRow where
  platform : String
  clip_id : String
  creator_id : Nat
  profile_id : Nat
  status : ClipStatus
  created_at_meta : String
deriving DecidableEq, Repr

/-- A normalized clip candidate (the ClipMeta fields discovery reads). -/
structure Candidate where
  platform : String
  clip_id : String
  created_at : String
deriving DecidableEq, Repr

/-- INSERT OR IGNORE under UNIQUE(platform, clip_id): a duplicate key is
silently skipped and the stored row is untouched. -/
def insertOrIgnore (tbl : List ClipRow) (row : ClipRow) : List ClipRow :=
  if tbl.any (fun r => r.platform = row.platform ∧ r.clip_id = row.clip_id) then tbl
  else tbl ++ [row]

def mkClipRow (creator_id profile_id : Nat) (c : Candidate) : ClipRow :=
  { platform := c.platform, clip_id := c.clip_id, creator_id := creator_id,
    profile_id := profile_id, status := DISCOVERED, created_at_meta := c.created_at }

def keyCount (tbl : List ClipRow) (platform clip_id : String) : Nat :=
  (tbl.filter (fun r => r.platform = platform ∧ r.clip_id = clip_id)).length

/-- The literal per-clip body of the insert loop (discover.py lines 85-116).
After the first INSERT OR IGNORE succeeds, the next statement executes the
literal SQL text "INSERT OR IGNORE INTO clips ...", which sqlite rejects
with a syntax error; the per-clip except swallows it, so the newest_time
tracking below it (lines 110-113) never runs. The state is
(clips table, newest_time). -/
def discoverClipStep (creator_id profile_id : Nat) (st : List ClipRow × Option String)
    (clip : Candidate) : List ClipRow × Option String :=
  let t1 := insertOrIgnore st.1 (mkClipRow creator_id profile_id clip)
  (t1, st.2)

/-- One creator batch of discover_for_profile (discover.py lines 84-128):
newest_time starts at the stored cursor, the clip loop runs, and the cursor
row is upserted when newest_time is truthy. -/
def discoverBatch (creator_id profile_id : Nat) (prev_cursor : Option String)
    (tbl : List ClipRow) (clips : List Candidate) : List ClipRow × Option String :=
  let res := clips.foldl (discoverClipStep creator_id profile_id) (tbl, prev_cursor)
  match res.2 with
  | some t => if t = "" then (res.1, prev_cursor) else (res.1, some t)
  | none => (res.1, prev_cursor)

/-- Code points of a string; Python compares strings lexicographically by
code point (and SQLite TEXT with the default BINARY collation orders UTF-8
bytes the same way). -/
def codes (s : String) : List Nat := s.data.map Char.toNat

def ltCodes : List Nat → List Nat → Bool
  | [], [] => false
  | [], _ :: _ => true
  | _ :: _, [] => false
  | a :: as, b :: bs => if a < b then true else if b < a then false else ltCodes as bs

def pyStrLt (a b : String) : Bool := ltCodes (codes a) (codes b)

def pyStrLe (a b : String) : Bool := !(pyStrLt b a)

/-- The newest_time tracking of discover.py lines 110-113 as written (the
loop the exception above skips): advance to each truthy candidate timestamp
that is greater under Python string comparison. This is what the spec says
the cursor becomes; the executed code never reaches it. -/
def cursorAfterBatchSpec (prev : Option String) (clips : List Candidate) : Option String :=
  clips.foldl (fun nt c =>
    if c.created_at ≠ "" then
      match nt with
      | none => some c.created_at
      | some t =>
          if t = "" ∨ pyStrLt t c.created_at = true then some c.created_at else some t
    else nt) prev

/-! ## Top-N selection (src/src/run.py lines 81-142) -/

/-- The row fields select_top_clips reads and writes. -/
structure RRow where
  id : Nat
  viral_score : Option ℤ := none
  updated_at : String := ""
  status : ClipStatus := RENDERED
  fail_reason : Option String := none
deriving DecidableEq, Repr

/-- SQLite ORDER BY semantics for a nullable integer column: NULL sorts
below every integer. -/
def scoreNullLT : Option ℤ → Option ℤ → Prop
  | none, some _ => True
  | some a, some b => a < b
  | _, _ => False

instance : DecidableRel scoreNullLT
  | none, none => isFalse (fun h => h)
  | none, some _ => isTrue trivial
  | some _, none => isFalse (fun h => h)
  | some a, some b => (inferInstance : Decidable (a < b))

/-- `ORDER BY cl.viral_score DESC, cl.updated_at ASC` (run.py line 95):
a comes no later than b. -/
def sqliteLE (a b : RRow) : Prop :=
  scoreNullLT b.viral_score a.viral_score
    ∨ (a.viral_score = b.viral_score ∧ pyStrLe a.updated_at b.updated_at = true)

instance : DecidableRel sqliteLE := fun a b => by
  unfold sqliteLE; infer_instance

/-- The UPDATE of run.py lines 132-137 applied to a cut row. -/
def demoteRow (r : RRow) : RRow :=
  { r with status := FAILED, fail_reason := some "cut:below_top_n" }

/-- select_top_clips (run.py lines 81-142) on the RENDERED rows of the
profile: when more than top_n are rendered, the rows past the first top_n
of the sorted order are demoted to FAILED cut:below_top_n; the kept rows
are untouched. -/
def select_top_clips (rendered : List RRow) (top_n : Nat) : List RRow :=
  let sorted := List.insertionSort sqliteLE rendered
  if rendered.length ≤ top_n then rendered
  else sorted.take top_n ++ (sorted.drop top_n).map demoteRow

/-! ## Auxiliary definitions used by the theorems -/

/-- A regex that matches no string at all. -/
def Re.dead : Re → Bool
  | .emp => true
  | .eps => false
  | .chr _ => false
  | .dot => false
  | .cls cs => cs.isEmpty
  | .alt a b => a.dead && b.dead
  | .cat a b => a.dead || b.dead
  | .star _ => false

/-- A pattern that cannot start a match on any whitespace character: not
nullable, and every derivative along a whitespace character is dead. -/
def deadOnSpaces (p : Pat) : Bool :=
  !p.core.nullable && pySpaceChars.all (fun c => (p.core.deriv c).dead)

/-- `viral_score` with NULL read as 0 (the ordering the spec describes). -/
def scoreVal (r : RRow) : ℤ := r.viral_score.getD 0

/-- The spec ordering of §4.7: descending viral_score with nulls as 0, ties
by ascending updated_at. -/
def specLe (a b : RRow) : Prop :=
  scoreVal b < scoreVal a
    ∨ (scoreVal a = scoreVal b ∧ pyStrLe a.updated_at b.updated_at = true)

/-- Running maximum of the overlap durations (0 when no turn). -/
def bestOv (w : SWord) (ts : List Turn) : ℚ :=
  ts.foldl (fun b t => max b (overlapDur w t)) 0

/-- The latest-listed turn whose interval contains the word midpoint. -/
def lastMidSpeaker (w : SWord) (ts : List Turn) : Option String :=
  (ts.reverse.find? (fun t =>
    t.start ≤ (w.start + w.stop) / 2 ∧ (w.start + w.stop) / 2 ≤ t.stop)).map
    (fun t => t.speaker)

/-- Reference description of the per-word speaker choice the loop computes:
the earliest-listed turn attaining the (positive) maximum overlap, else the
latest-listed turn containing the midpoint, else the default label. -/
def assignSpeakerSpec (w : SWord) (ts : List Turn) : String :=
  if 0 < bestOv w ts then
    ((ts.find? (fun t => overlapDur w t = bestOv w ts)).map (fun t => t.speaker)).getD
      "SPEAKER_00"
  else (lastMidSpeaker w ts).getD "SPEAKER_00"

/-! Concrete inputs used by the claims. -/

/-- The caption-compiler example words of §8. -/
def c2Transcript : Transcript :=
  { segments := [], full_text := "hey you there", duration := 4,
    words := [{ start := 0, stop := 3 / 10, word := "hey" },
      { start := 3 / 10, stop := 6 / 10, word := "you" },
      { start := 3, stop := 34 / 10, word := "there" }] }

def c2Seg : Segment := { start := 0, stop := 4 }

/-- 60 words, 9 of them bleep-worthy. -/
def densityEx9 : String :=
  "fuck shit bitch damn ass dick cock whore bastard " ++
  "the stream was fun and chat kept laughing for a long time while we played more games " ++
  "with friends from other servers then we all talked about the next event and planned new " ++
  "clips for tomorrow so everyone stayed happy until the very end of it now and then again soon"

/-- 60 words, 7 of them bleep-worthy. -/
def densityEx7 : String :=
  "fuck shit bitch damn ass dick cock " ++
  "the stream was fun and chat kept laughing for a long time while we played more games " ++
  "with friends from other servers then we all talked about the next event and planned new " ++
  "clips for tomorrow so everyone stayed happy until the very end of it now and then again soon after that"

/-- The §8 speaker-assignment example: word fully inside turn A, barely
overlapping turn B. -/
def c4exWord : SWord := { start := 1, stop := 3 / 2, word := "w" }

def c4exA : Turn := { start := 9 / 10, stop := 2, speaker := "A" }

def c4exB : Turn := { start := 29 / 20, stop := 31 / 20, speaker := "B" }

/-- A tie under exact (and binary-float) arithmetic: both overlaps are 1/4,
and only turn B contains the word midpoint 3/2. -/
def cexWord : SWord := { start := 1, stop := 2, word := "w" }

def cexA : Turn := { start := 1, stop := 5 / 4, speaker := "A" }

def cexB : Turn := { start := 3 / 2, stop := 7 / 4, speaker := "B" }

def c5prev : Option String := some "2024-01-01T00:00:00Z"

def c5batch : List Candidate :=
  [{ platform := "twitch", clip_id := "clip-9", created_at := "2024-06-01T00:00:00Z" }]

/-- The §8 top-N example: scores [9,7,7,5,2], the two 7s distinguished by
updated_at. -/
def c7rows : List RRow := [
  { id := 1, viral_score := some 9, updated_at := "t1" },
  { id := 2, viral_score := some 7, updated_at := "t3" },
  { id := 3, viral_score := some 7, updated_at := "t2" },
  { id := 4, viral_score := some 5, updated_at := "t4" },
  { id := 5, viral_score := some 2, updated_at := "t5" }]

/-! # Theorems -/

/-! ## Discovery: insert idempotence and the cursor -/

theorem any_key_iff (tbl : List ClipRow) (row : ClipRow) :
    (tbl.any (fun r => r.platform = row.platform ∧ r.clip_id = row.clip_id)) = true ↔
      keyCount tbl row.platform row.clip_id ≠ 0 := by
  unfold keyCount
  rw [List.any_eq_true]
  rw [Ne, List.length_eq_zero, List.filter_eq_nil_iff]
  push_neg
  simp

theorem insertOrIgnore_fresh (tbl : List ClipRow) (row : ClipRow)
    (h : keyCount tbl row.platform row.clip_id = 0) :
    insertOrIgnore tbl row = tbl ++ [row] := by
  unfold insertOrIgnore
  rw [if_neg]
  intro hc
  exact (any_key_iff tbl row).1 hc h

theorem insertOrIgnore_dup (tbl : List ClipRow) (row : ClipRow)
    (h : keyCount tbl row.platform row.clip_id ≠ 0) :
    insertOrIgnore tbl row = tbl := by
  unfold insertOrIgnore
  rw [if_pos ((any_key_iff tbl row).2 h)]

theorem insertOrIgnore_idem (tbl : List ClipRow) (row : ClipRow) :
    insertOrIgnore (insertOrIgnore tbl row) row = insertOrIgnore tbl row := by
  by_cases h : keyCount tbl row.platform row.clip_id = 0
  · rw [insertOrIgnore_fresh tbl row h]
    apply insertOrIgnore_dup
    unfold keyCount
    rw [List.filter_append]
    simp
  · rw [insertOrIgnore_dup tbl row h, insertOrIgnore_dup tbl row h]

theorem keyCount_insertOrIgnore (tbl : List ClipRow) (row : ClipRow)
    (h : keyCount tbl row.platform row.clip_id ≤ 1) :
    keyCount (insertOrIgnore tbl row) row.platform row.clip_id = 1 := by
  rcases Nat.eq_zero_or_pos (keyCount tbl row.platform row.clip_id) with h0 | hpos
  · rw [insertOrIgnore_fresh tbl row h0]
    unfold keyCount at h0 ⊢
    rw [List.filter_append, List.length_append, h0]
    simp [List.filter]
  · rw [insertOrIgnore_dup tbl row (Nat.pos_iff_ne_zero.1 hpos)]
    omega

/-- C6: discovery insertion is idempotent under UNIQUE(platform, clip_id):
presenting the same candidate any number of times leaves exactly one stored
row; the duplicate insert silently returns the table unchanged (no error),
and a fresh insert appends exactly one row. -/
theorem C6_discovery_idempotent :
    ∀ (tbl : List ClipRow) (row : ClipRow) (n : Nat),
      ((fun t => insertOrIgnore t row)^[n + 1]) tbl = insertOrIgnore tbl row
      ∧ (keyCount tbl row.platform row.clip_id = 0 →
          insertOrIgnore tbl row = tbl ++ [row])
      ∧ (keyCount tbl row.platform row.clip_id ≠ 0 → insertOrIgnore tbl row = tbl)
      ∧ (keyCount tbl row.platform row.clip_id ≤ 1 →
          keyCount (insertOrIgnore tbl row) row.platform row.clip_id = 1) := by
  have hiter : ∀ (row : ClipRow) (n : Nat) (tbl : List ClipRow),
      ((fun t => insertOrIgnore t row)^[n + 1]) tbl = insertOrIgnore tbl row := by
    intro row n
    induction n with
    | zero => intro tbl; simp
    | succ n ih =>
        intro tbl
        rw [Function.iterate_succ_apply]
        rw [ih (insertOrIgnore tbl row)]
        exact insertOrIgnore_idem tbl row
  intro tbl row n
  exact ⟨hiter row n tbl, insertOrIgnore_fresh tbl row, insertOrIgnore_dup tbl row,
    keyCount_insertOrIgnore tbl row⟩

/-- C5: at a concrete one-clip batch with a newer timestamp, the executed
code leaves the cursor at its previous value, while the newest-observed
maximum the spec describes (the dead tracking code of lines 110-113) is the
new timestamp. -/
theorem C5_cursor_never_advances :
    (discoverBatch 1 1 c5prev [] c5batch).2 = some "2024-01-01T00:00:00Z"
    ∧ cursorAfterBatchSpec c5prev c5batch = some "2024-06-01T00:00:00Z"
    ∧ (discoverBatch 1 1 c5prev [] c5batch).2 ≠ cursorAfterBatchSpec c5prev c5batch := by
  exact ⟨rfl, by decide, by decide⟩

/-! ## C8: the length gate -/

/-- C8: with a non-negative configured maximum, the length gate passes
exactly the durations in [min, 3 * max]: strictly shorter than the minimum
is rejected, above the maximum is tolerated up to 3 * max, and strictly
beyond 3 * max is rejected. -/
theorem C8_gate_length_band :
    ∀ (t : Transcript) (rules : ProfileRules), 0 ≤ rules.length_band_max →
      ((gate_length t rules).1 = true ↔
        ((rules.length_band_min : ℚ) ≤ t.duration
          ∧ t.duration ≤ (rules.length_band_max : ℚ) * 3)) := by
  intro t rules hmax
  have hmax2 : (0 : ℚ) ≤ (rules.length_band_max : ℚ) := by exact_mod_cast hmax
  simp only [gate_length]
  split_ifs with h1 h2
  · simp only [Bool.false_eq_true, false_iff, not_and]
    intro ha _
    exact absurd h1 (not_lt.2 ha)
  · simp only [Bool.and_eq_true, decide_eq_true_eq] at h2
    simp only [Bool.false_eq_true, false_iff, not_and]
    intro _ hb
    exact absurd h2.2 (not_lt.2 hb)
  · have h2a : ¬(t.duration > (rules.length_band_max : ℚ)
        ∧ t.duration > (rules.length_band_max : ℚ) * 3) := by
      simpa [Bool.and_eq_true, decide_eq_true_eq] using h2
    simp only [true_iff]
    refine ⟨not_lt.1 h1, ?_⟩
    rcases not_and_or.1 h2a with hl | hr
    · have hda : t.duration ≤ (rules.length_band_max : ℚ) := not_lt.1 hl
      linarith
    · exact not_lt.1 hr

/-- C8 witness: duration 30 passes the default band [20, 40]. -/
theorem C8_gate_length_band_witness :
    (gate_length { segments := [], words := [], full_text := "", duration := 30 }
      { length_band_min := 20, length_band_max := 40 }).1 = true :=
  (C8_gate_length_band { segments := [], words := [], full_text := "", duration := 30 }
    { length_band_min := 20, length_band_max := 40 } (by norm_num)).2 (by norm_num)

/-! ## C10: the speaker-to-color mapping -/

/-- C10: the speaker-to-color map is total into the fixed 4-color palette:
a parsed integer suffix is reduced modulo the palette length, which always
lands in range, and an unparseable suffix falls back to yellow, the color of
SPEAKER_00. -/
theorem C10_speaker_color_total :
    (∀ s, _speaker_color s ∈ SPEAKER_COLORS)
    ∧ (∀ s, pyInt (afterLastUnderscore s) = none → _speaker_color s = "yellow")
    ∧ (∀ s i, pyInt (afterLastUnderscore s) = some i →
        ((i % (SPEAKER_COLORS.length : ℤ)).toNat < SPEAKER_COLORS.length
          ∧ _speaker_color s
              = SPEAKER_COLORS.getD ((i % (SPEAKER_COLORS.length : ℤ)).toNat) "yellow"))
    ∧ _speaker_color "SPEAKER_00" = "yellow" := by
  have hidx : ∀ i : ℤ, (i % (SPEAKER_COLORS.length : ℤ)).toNat < SPEAKER_COLORS.length := by
    intro i
    have h0 : 0 ≤ i % (4 : ℤ) := Int.emod_nonneg i (by norm_num)
    have h1 : i % (4 : ℤ) < 4 := Int.emod_lt_of_pos i (by norm_num)
    show (i % (4 : ℤ)).toNat < 4
    omega
  refine ⟨?_, ?_, ?_, by decide⟩
  · intro s
    unfold _speaker_color
    cases h : pyInt (afterLastUnderscore s) with
    | none => decide
    | some i =>
        show SPEAKER_COLORS.getD ((i % (SPEAKER_COLORS.length : ℤ)).toNat) "yellow"
          ∈ SPEAKER_COLORS
        have hlt := hidx i
        generalize hg : (i % (SPEAKER_COLORS.length : ℤ)).toNat = k at hlt ⊢
        have hlen : SPEAKER_COLORS.length = 4 := rfl
        rw [hlen] at hlt
        have hcases : k = 0 ∨ k = 1 ∨ k = 2 ∨ k = 3 := by omega
        rcases hcases with h | h | h | h <;> subst h <;> decide
  · intro s h
    unfold _speaker_color
    rw [h]
    rfl
  · intro s i h
    unfold _speaker_color
    rw [h]
    exact ⟨hidx i, rfl⟩

/-! ## C9: dead patterns on whitespace-only text -/

theorem dead_nullable : ∀ r : Re, r.dead = true → r.nullable = false := by
  intro r
  induction r with
  | emp => intro _; rfl
  | eps => intro h; simp [Re.dead] at h
  | chr c => intro _; rfl
  | dot => intro _; rfl
  | cls cs => intro _; rfl
  | alt a b iha ihb =>
      intro h
      simp only [Re.dead, Bool.and_eq_true] at h
      simp [Re.nullable, iha h.1, ihb h.2]
  | cat a b iha ihb =>
      intro h
      simp only [Re.dead, Bool.or_eq_true] at h
      rcases h with h | h
      · simp [Re.nullable, iha h]
      · simp [Re.nullable, ihb h]
  | star a iha => intro h; simp [Re.dead] at h

theorem salt_dead {a b : Re} (ha : a.dead = true) (hb : b.dead = true) :
    (Re.salt a b).dead = true := by
  cases a <;> cases b <;> simp_all [Re.salt, Re.dead]

theorem scat_dead_left {a : Re} (b : Re) (ha : a.dead = true) :
    (Re.scat a b).dead = true := by
  cases a <;> cases b <;> simp_all [Re.scat, Re.dead]

theorem scat_dead_right (a : Re) {b : Re} (hb : b.dead = true) :
    (Re.scat a b).dead = true := by
  cases a <;> cases b <;> simp_all [Re.scat, Re.dead]

theorem dead_deriv : ∀ (r : Re) (c : Char), r.dead = true → (r.deriv c).dead = true := by
  intro r
  induction r with
  | emp => intro c _; rfl
  | eps => intro c h; cases h
  | chr a => intro c h; cases h
  | dot => intro c h; cases h
  | cls cs =>
      intro c h
      simp only [Re.dead, List.isEmpty_iff] at h
      subst h
      simp [Re.deriv, Re.dead, List.contains]
  | alt a b iha ihb =>
      intro c h
      simp only [Re.dead, Bool.and_eq_true] at h
      exact salt_dead (iha c h.1) (ihb c h.2)
  | cat a b iha ihb =>
      intro c h
      simp only [Re.dead, Bool.or_eq_true] at h
      rcases h with ha | hb
      · have hn := dead_nullable a ha
        simp only [Re.deriv, hn, Bool.false_eq_true, if_false]
        exact scat_dead_left b (iha c ha)
      · simp only [Re.deriv]
        split
        · exact salt_dead (scat_dead_right _ hb) (ihb c hb)
        · exact scat_dead_right _ hb
  | star a iha => intro c h; cases h

theorem matchHere_dead :
    ∀ (l : List Char) (r : Re) (rB : Bool) (prev : Option Char),
      r.dead = true → matchHere r rB prev l = false := by
  intro l
  induction l with
  | nil =>
      intro r rB prev h
      simp [matchHere, dead_nullable r h]
  | cons c cs ih =>
      intro r rB prev h
      simp only [matchHere, dead_nullable r h, Bool.false_and, Bool.false_or]
      split
      · rfl
      · exact ih _ rB (some c) (dead_deriv r c h)

theorem isPySpace_mem {c : Char} (h : isPySpace c = true) : c ∈ pySpaceChars := by
  simpa [isPySpace, List.contains_iff_exists_mem_beq, beq_iff_eq] using h

theorem scanPat_false_on_spaces (p : Pat) (hp : deadOnSpaces p = true) :
    ∀ (l : List Char) (prev : Option Char), l.all isPySpace = true →
      scanPat p prev l = false := by
  have hp2 : (!p.core.nullable) = true
      ∧ (pySpaceChars.all fun c => (p.core.deriv c).dead) = true := by
    simpa [deadOnSpaces, Bool.and_eq_true] using hp
  have hnn : p.core.nullable = false := by simpa using hp2.1
  have hder : ∀ c ∈ pySpaceChars, (p.core.deriv c).dead = true := by
    simpa [List.all_eq_true] using hp2.2
  intro l
  induction l with
  | nil =>
      intro prev _
      simp [scanPat, matchHere, hnn]
  | cons c cs ih =>
      intro prev hall
      simp only [List.all_cons, Bool.and_eq_true] at hall
      have hd : (p.core.deriv c).dead = true := hder c (isPySpace_mem hall.1)
      simp only [scanPat, matchHere, hnn, Bool.false_and, Bool.false_or]
      rw [ih (some c) hall.2]
      simp only [Bool.or_false]
      split
      · simp
      · rw [matchHere_dead cs _ p.rB (some c) hd]
        simp

theorem all_patterns_dead_on_spaces :
    (SLUR_PATTERNS ++ GAMBLING_PATTERNS ++ SEXUAL_EXPLICIT_PATTERNS).all deadOnSpaces
      = true := by decide

theorem anyPat_false_on_spaces (ps : List Pat)
    (hps : ps.all deadOnSpaces = true) (s : String)
    (hs : s.data.all isPySpace = true) : anyPat ps s = false := by
  unfold anyPat searchPat
  rw [List.any_eq_false]
  intro p hp
  have hdead : deadOnSpaces p = true := (List.all_eq_true.1 hps) p hp
  simp only [Bool.not_eq_true]
  exact scanPat_false_on_spaces p hdead s.data none hs

theorem splitWsGo_nil_of_spaces :
    ∀ l : List Char, l.all isPySpace = true → splitWsGo [] l = [] := by
  intro l
  induction l with
  | nil => intro _; rfl
  | cons c cs ih =>
      intro hall
      simp only [List.all_cons, Bool.and_eq_true] at hall
      simp [splitWsGo, hall.1, ih hall.2]

theorem toLower_space {c : Char} (h : isPySpace c = true) :
    isPySpace (Char.toLower c) = true := by
  have hm : c ∈ pySpaceChars := isPySpace_mem h
  fin_cases hm <;> decide

/-- C9: a full_text that is empty or whitespace-only (its whitespace split
is the empty word list) always passes the lexical pre-filter with
(True, ""): no hard-reject pattern can match, and the bleep-count and
density checks are skipped. -/
theorem C9_whitespace_text_passes :
    ∀ s : String, s.data.all isPySpace = true → content_pre_filter s = (true, "") := by
  intro s hs
  have hlow : (pyLower s).data.all isPySpace = true := by
    simp only [pyLower, List.all_map]
    rw [List.all_eq_true] at hs ⊢
    intro c hc
    exact toLower_space (hs c hc)
  have hall := all_patterns_dead_on_spaces
  simp only [List.all_append, Bool.and_eq_true] at hall
  have h1 := anyPat_false_on_spaces SLUR_PATTERNS hall.1.1 (pyLower s) hlow
  have h2 := anyPat_false_on_spaces GAMBLING_PATTERNS hall.1.2 (pyLower s) hlow
  have h3 := anyPat_false_on_spaces SEXUAL_EXPLICIT_PATTERNS hall.2 (pyLower s) hlow
  have h4 : pySplit (pyLower s) = [] := splitWsGo_nil_of_spaces _ hlow
  simp [content_pre_filter, h1, h2, h3, h4]

/-- C9 witness: a tab-and-spaces text passes. -/
theorem C9_whitespace_text_passes_witness :
    content_pre_filter "  \t " = (true, "") :=
  C9_whitespace_text_passes "  \t " (by decide)

/-! ## C3: the lexical pre-filter reject condition -/

/-- C3: content_pre_filter rejects exactly when a hard-reject pattern
matches the lowercased text, or the bleep-word count strictly exceeds
MAX_BLEEP_WORDS = 8, or the bleep density strictly exceeds
MAX_PROFANITY_DENSITY = 0.12; every rejection reason starts with
hard_reject. In particular the 60-word text with 9 flagged words is
rejected and the one with 7 flagged words passes. -/
theorem C3_content_pre_filter_iff :
    (∀ s : String,
      ((content_pre_filter s).1 = false ↔
        (anyPat SLUR_PATTERNS (pyLower s) = true
          ∨ anyPat GAMBLING_PATTERNS (pyLower s) = true
          ∨ anyPat SEXUAL_EXPLICIT_PATTERNS (pyLower s) = true
          ∨ MAX_BLEEP_WORDS < bleepCount (pySplit (pyLower s))
          ∨ MAX_PROFANITY_DENSITY
              < (bleepCount (pySplit (pyLower s)) : ℚ)
                  / ((pySplit (pyLower s)).length : ℚ))))
    ∧ (∀ s, (content_pre_filter s).1 = false →
        ∃ rest, (content_pre_filter s).2 = "hard_reject:" ++ rest)
    ∧ (pySplit (pyLower densityEx9)).length = 60
    ∧ bleepCount (pySplit (pyLower densityEx9)) = 9
    ∧ content_pre_filter densityEx9 = (false, "hard_reject:too_many_profanities(9)")
    ∧ (pySplit (pyLower densityEx7)).length = 60
    ∧ bleepCount (pySplit (pyLower densityEx7)) = 7
    ∧ content_pre_filter densityEx7 = (true, "") := by
  refine ⟨?_, ?_, by decide, by decide, ?_, by decide, by decide, ?_⟩
  · intro s
    simp only [content_pre_filter]
    by_cases h1 : anyPat SLUR_PATTERNS (pyLower s) = true
    · rw [if_pos h1]; exact iff_of_true rfl (.inl h1)
    rw [if_neg h1]
    by_cases h2 : anyPat GAMBLING_PATTERNS (pyLower s) = true
    · rw [if_pos h2]; exact iff_of_true rfl (.inr (.inl h2))
    rw [if_neg h2]
    by_cases h3 : anyPat SEXUAL_EXPLICIT_PATTERNS (pyLower s) = true
    · rw [if_pos h3]; exact iff_of_true rfl (.inr (.inr (.inl h3)))
    rw [if_neg h3]
    rcases hw : pySplit (pyLower s) with _ | ⟨w, ws⟩
    · simp only [hw]
      refine iff_of_false (by simp) ?_
      push_neg
      refine ⟨h1, h2, h3, by simp [bleepCount], ?_⟩
      simp only [bleepCount, List.filter_nil, List.length_nil]
      norm_num [MAX_PROFANITY_DENSITY]
    · simp only [hw]
      by_cases h4 : bleepCount (w :: ws) > MAX_BLEEP_WORDS
      · rw [if_pos h4]; exact iff_of_true rfl (.inr (.inr (.inr (.inl h4))))
      rw [if_neg h4]
      by_cases h5 : (bleepCount (w :: ws) : ℚ) / (((w :: ws).length : ℕ) : ℚ)
          > MAX_PROFANITY_DENSITY
      · rw [if_pos h5]; exact iff_of_true rfl (.inr (.inr (.inr (.inr h5))))
      rw [if_neg h5]
      exact iff_of_false (by simp) (by push_neg; exact ⟨h1, h2, h3, not_lt.1 h4, not_lt.1 h5⟩)
  · intro s
    simp only [content_pre_filter]
    by_cases h1 : anyPat SLUR_PATTERNS (pyLower s) = true
    · rw [if_pos h1]; exact fun _ => ⟨"slur_detected", rfl⟩
    rw [if_neg h1]
    by_cases h2 : anyPat GAMBLING_PATTERNS (pyLower s) = true
    · rw [if_pos h2]; exact fun _ => ⟨"gambling_content", rfl⟩
    rw [if_neg h2]
    by_cases h3 : anyPat SEXUAL_EXPLICIT_PATTERNS (pyLower s) = true
    · rw [if_pos h3]; exact fun _ => ⟨"explicit_sexual_content", rfl⟩
    rw [if_neg h3]
    rcases hw : pySplit (pyLower s) with _ | ⟨w, ws⟩
    · simp only [hw]
      intro h
      exact absurd h (by simp)
    · simp only [hw]
      by_cases h4 : bleepCount (w :: ws) > MAX_BLEEP_WORDS
      · rw [if_pos h4]
        intro _
        exact ⟨"too_many_profanities(" ++ toString (bleepCount (w :: ws)) ++ ")", rfl⟩
      rw [if_neg h4]
      by_cases h5 : (bleepCount (w :: ws) : ℚ) / (((w :: ws).length : ℕ) : ℚ)
          > MAX_PROFANITY_DENSITY
      · rw [if_pos h5]
        intro _
        exact ⟨"profanity_density("
          ++ fmtPct ((bleepCount (w :: ws) : ℚ) / (((w :: ws).length : ℕ) : ℚ)) ++ ")", rfl⟩
      rw [if_neg h5]
      intro h
      exact absurd h (by simp)
  · rfl
  · have e1 : anyPat SLUR_PATTERNS (pyLower densityEx7) = false := by decide
    have e2 : anyPat GAMBLING_PATTERNS (pyLower densityEx7) = false := by decide
    have e3 : anyPat SEXUAL_EXPLICIT_PATTERNS (pyLower densityEx7) = false := by decide
    have e4 : bleepCount (pySplit (pyLower densityEx7)) = 7 := by decide
    have e5 : (pySplit (pyLower densityEx7)).length = 60 := by decide
    simp only [content_pre_filter]
    rw [if_neg (by simp [e1]), if_neg (by simp [e2]), if_neg (by simp [e3])]
    rcases hw : pySplit (pyLower densityEx7) with _ | ⟨w, ws⟩
    · exact absurd (hw ▸ e5) (by decide)
    · have h4 : ¬(bleepCount (w :: ws) > MAX_BLEEP_WORDS) := by
        rw [← hw, e4]; decide
      have h5 : ¬((bleepCount (w :: ws) : ℚ) / (((w :: ws).length : ℕ) : ℚ)
          > MAX_PROFANITY_DENSITY) := by
        rw [← hw, e4, e5]
        norm_num [MAX_PROFANITY_DENSITY]
      rw [if_neg h4, if_neg h5]

/-! ## C2: caption chunks never overlap -/

theorem chain_buildChunkCaptions (seg : Segment) :
    ∀ chunks : List (List SWord),
      List.Chain' (fun a b => a.cstop ≤ b.cstart) (buildChunkCaptions seg chunks) := by
  intro chunks
  induction chunks with
  | nil => exact List.chain'_nil
  | cons ch rest ih =>
      cases rest with
      | nil => simp [buildChunkCaptions]
      | cons ch2 rest2 =>
          simp only [buildChunkCaptions] at ih ⊢
          rw [List.chain'_cons]
          exact ⟨le_trans (min_le_right _ _) (le_max_right _ _), ih⟩

/-- C2: in the word-level caption path, each chunk end is clamped to the
next chunk start, so consecutive caption intervals never overlap, for every
word list, chunk size and segment; on the §8 example the compiler produces
exactly 2 chunks, [0, 0.75] and [3, 3.55], and the first ends before the
second starts at 3.0 (no bleed into the silence gap). -/
theorem C2_captions_no_overlap :
    (∀ (t : Transcript) (seg : Segment) (k : Nat) (sw : Option (List SWord)),
        t.words ≠ [] →
        List.Chain' (fun a b => a.cstop ≤ b.cstart) (_build_caption_filters t seg k sw))
    ∧ (_build_caption_filters c2Transcript c2Seg 2 none).length = 2
    ∧ (_build_caption_filters c2Transcript c2Seg 2 none).map
        (fun c => (c.cstart, c.cstop)) = [(0, 3 / 4), (3, 71 / 20)]
    ∧ ((3 : ℚ) / 4 ≤ 3) := by
  refine ⟨?_, ?_, ?_, by norm_num⟩
  · intro t seg k sw hw
    unfold _build_caption_filters
    rw [if_pos hw]
    cases sw with
    | none => exact chain_buildChunkCaptions seg _
    | some l =>
        dsimp only
        split
        · exact chain_buildChunkCaptions seg _
        · exact chain_buildChunkCaptions seg _
  · have h : c2Transcript.words ≠ [] := by simp [c2Transcript]
    unfold _build_caption_filters
    rw [if_pos h]
    norm_num [c2Transcript, c2Seg, buildWordCaptions, filterSegWords,
      chunksOf, chunksOfAux, buildChunkCaptions, headStart, lastStop, TAIL_PAD, List.filter,
      max_def, min_def]
  · have h : c2Transcript.words ≠ [] := by simp [c2Transcript]
    unfold _build_caption_filters
    rw [if_pos h]
    norm_num [c2Transcript, c2Seg, buildWordCaptions, filterSegWords,
      chunksOf, chunksOfAux, buildChunkCaptions, headStart, lastStop, TAIL_PAD, List.filter,
      max_def, min_def]

/-! ## C4: speaker assignment -/

theorem overlapDur_nonneg (w : SWord) (t : Turn) : 0 ≤ overlapDur w t :=
  le_max_left 0 _

theorem foldMax_init_le (w : SWord) :
    ∀ (ts : List Turn) (b : ℚ),
      b ≤ ts.foldl (fun b t => max b (overlapDur w t)) b := by
  intro ts
  induction ts with
  | nil => intro b; exact le_refl b
  | cons t ts ih =>
      intro b
      rw [List.foldl_cons]
      exact le_trans (le_max_left _ _) (ih (max b (overlapDur w t)))

theorem le_foldMax_of_mem (w : SWord) :
    ∀ (ts : List Turn) (b : ℚ) (u : Turn), u ∈ ts →
      overlapDur w u ≤ ts.foldl (fun b t => max b (overlapDur w t)) b := by
  intro ts
  induction ts with
  | nil => intro b u hu; cases hu
  | cons t ts ih =>
      intro b u hu
      rw [List.foldl_cons]
      rcases List.mem_cons.1 hu with h | h
      · subst h
        exact le_trans (le_max_right _ _) (foldMax_init_le w ts _)
      · exact ih _ u h

theorem foldMax_attained (w : SWord) :
    ∀ (ts : List Turn) (b : ℚ),
      ts.foldl (fun b t => max b (overlapDur w t)) b = b
        ∨ ∃ u ∈ ts, ts.foldl (fun b t => max b (overlapDur w t)) b = overlapDur w u := by
  intro ts
  induction ts with
  | nil => intro b; exact Or.inl rfl
  | cons t ts ih =>
      intro b
      rw [List.foldl_cons]
      rcases ih (max b (overlapDur w t)) with h | ⟨u, hu, h⟩
      · rcases max_choice b (overlapDur w t) with hm | hm
        · left; rw [h, hm]
        · right; exact ⟨t, List.mem_cons_self t ts, by rw [h, hm]⟩
      · right; exact ⟨u, List.mem_cons_of_mem t hu, h⟩

theorem bestOv_nonneg (w : SWord) (ts : List Turn) : 0 ≤ bestOv w ts :=
  foldMax_init_le w ts 0

theorem overlapDur_le_bestOv (w : SWord) {ts : List Turn} {u : Turn} (hu : u ∈ ts) :
    overlapDur w u ≤ bestOv w ts :=
  le_foldMax_of_mem w ts 0 u hu

theorem bestOv_attained (w : SWord) {ts : List Turn} (h : 0 < bestOv w ts) :
    ∃ u ∈ ts, overlapDur w u = bestOv w ts := by
  rcases foldMax_attained w ts 0 with h0 | ⟨u, hu, he⟩
  · exact absurd (show bestOv w ts = 0 from h0) (ne_of_gt h)
  · exact ⟨u, hu, he.symm⟩

theorem bestOv_append (w : SWord) (ts : List Turn) (t : Turn) :
    bestOv w (ts ++ [t]) = max (bestOv w ts) (overlapDur w t) := by
  unfold bestOv
  rw [List.foldl_append, List.foldl_cons, List.foldl_nil]

theorem find?_app {α : Type} (p : α → Bool) :
    ∀ l1 l2 : List α,
      List.find? p (l1 ++ l2) = (List.find? p l1).orElse (fun _ => List.find? p l2) := by
  intro l1 l2
  induction l1 with
  | nil => simp
  | cons a l ih =>
      by_cases hp : p a = true
      · simp [List.find?_cons_of_pos _ hp, Option.orElse]
      · rw [List.cons_append, List.find?_cons_of_neg _ hp, List.find?_cons_of_neg _ hp, ih]

theorem speakerFold (w : SWord) :
    ∀ ts : List Turn,
      ts.foldl (speakerStep w ((w.start + w.stop) / 2)) ("SPEAKER_00", 0)
        = (assignSpeakerSpec w ts, bestOv w ts) := by
  intro ts
  induction ts using List.reverseRecOn with
  | nil =>
      simp [assignSpeakerSpec, bestOv, lastMidSpeaker]
  | append_singleton ts t ih =>
      rw [List.foldl_append, ih, List.foldl_cons, List.foldl_nil, bestOv_append]
      simp only [speakerStep]
      rcases lt_or_ge (bestOv w ts) (overlapDur w t) with hlt | hge
      · have hpos : (0 : ℚ) < overlapDur w t := lt_of_le_of_lt (bestOv_nonneg w ts) hlt
        rw [if_pos hlt]
        rw [if_neg (fun hc => (ne_of_gt hpos) hc.1)]
        rw [max_eq_right hlt.le]
        have hspec : assignSpeakerSpec w (ts ++ [t]) = t.speaker := by
          unfold assignSpeakerSpec
          rw [bestOv_append, max_eq_right hlt.le, if_pos hpos, find?_app]
          have hnone :
              List.find? (fun u => decide (overlapDur w u = overlapDur w t)) ts = none := by
            rw [List.find?_eq_none]
            intro u hu
            simp only [decide_eq_true_eq]
            intro heq
            have hle := overlapDur_le_bestOv w hu
            rw [heq] at hle
            exact absurd hle (not_le.2 hlt)
          rw [hnone]
          simp [List.find?]
        rw [hspec]
      · rw [if_neg (not_lt.2 hge)]
        rw [max_eq_left hge]
        rcases eq_or_lt_of_le (bestOv_nonneg w ts) with hb0 | hbpos
        · have hov : overlapDur w t = 0 :=
            le_antisymm (hb0 ▸ hge) (overlapDur_nonneg w t)
          by_cases hmid : t.start ≤ (w.start + w.stop) / 2
              ∧ (w.start + w.stop) / 2 ≤ t.stop
          · rw [if_pos ⟨hb0.symm, hmid⟩]
            have hspec : assignSpeakerSpec w (ts ++ [t]) = t.speaker := by
              unfold assignSpeakerSpec
              rw [bestOv_append, max_eq_left hge, ← hb0, if_neg (lt_irrefl (0 : ℚ))]
              unfold lastMidSpeaker
              have hrev : (ts ++ [t]).reverse = t :: ts.reverse := by simp
              rw [hrev, List.find?_cons_of_pos _ (by simpa using hmid)]
              simp
            rw [hspec]
          · rw [if_neg (fun hc => hmid hc.2)]
            have hspec : assignSpeakerSpec w (ts ++ [t]) = assignSpeakerSpec w ts := by
              unfold assignSpeakerSpec
              rw [bestOv_append, max_eq_left hge, ← hb0, if_neg (lt_irrefl (0 : ℚ)),
                if_neg (lt_irrefl (0 : ℚ))]
              unfold lastMidSpeaker
              have hrev : (ts ++ [t]).reverse = t :: ts.reverse := by simp
              rw [hrev, List.find?_cons_of_neg _ (by simpa using hmid)]
            rw [hspec]
        · rw [if_neg (fun hc => (ne_of_gt hbpos) hc.1)]
          have hspec : assignSpeakerSpec w (ts ++ [t]) = assignSpeakerSpec w ts := by
            unfold assignSpeakerSpec
            rw [bestOv_append, max_eq_left hge, if_pos hbpos, if_pos hbpos, find?_app]
            obtain ⟨u, hu, hue⟩ := bestOv_attained w hbpos
            rcases hfind : List.find? (fun u => decide (overlapDur w u = bestOv w ts)) ts
              with _ | v
            · exfalso
              rw [List.find?_eq_none] at hfind
              have hc := hfind u hu
              simp only [decide_eq_true_eq] at hc
              exact hc hue
            · simp [Option.orElse]
          rw [hspec]

/-- C4 (amended): with no diarization every word gets the default label;
otherwise each word overlapping the edit window is assigned by the loop:
the earliest-listed turn attaining the (positive) maximum overlap wins —
a tie between positive overlaps is NOT broken by the midpoint — and only
words with zero overlap against every turn fall back to the latest-listed
turn containing the word midpoint, defaulting to SPEAKER_00; so any
assigned turn with positive overlap attains the maximum overlap. The §8
example word [1, 1.5] against turns A [0.9, 2] and B [1.45, 1.55] is
assigned A. -/
theorem C4_assign_speakers_amended :
    (∀ (words : List SWord) (s e : ℚ),
        assign_speakers_to_words words [] s e
          = words.map (fun w => { w with speaker := some "SPEAKER_00" }))
    ∧ (∀ (words : List SWord) (ts : List Turn) (s e : ℚ), ts ≠ [] →
        assign_speakers_to_words words ts s e
          = words.map (fun w =>
              if w.stop ≤ s ∨ w.start ≥ e then w
              else { w with speaker := some (assignSpeakerSpec w ts) }))
    ∧ (∀ (w : SWord) (ts : List Turn), 0 < bestOv w ts →
        ∃ t ∈ ts, overlapDur w t = bestOv w ts
          ∧ assignSpeakerSpec w ts = t.speaker
          ∧ ∀ u ∈ ts, overlapDur w u ≤ overlapDur w t)
    ∧ assign_speakers_to_words [c4exWord] [c4exA, c4exB] 0 10
        = [{ c4exWord with speaker := some "A" }] := by
  refine ⟨?_, ?_, ?_, ?_⟩
  · intro words s e
    rfl
  · intro words ts s e hts
    cases ts with
    | nil => exact absurd rfl hts
    | cons t0 ts0 =>
        show words.map _ = words.map _
        congr 1
        funext w
        by_cases hcond : w.stop ≤ s ∨ w.start ≥ e
        · rw [if_pos hcond, if_pos hcond]
        · rw [if_neg hcond, if_neg hcond]
          dsimp only
          rw [speakerFold w (t0 :: ts0)]
  · intro w ts hpos
    obtain ⟨u, hu, hue⟩ := bestOv_attained w hpos
    rcases hfind : List.find? (fun u => decide (overlapDur w u = bestOv w ts)) ts
      with _ | v
    · exfalso
      rw [List.find?_eq_none] at hfind
      have hc := hfind u hu
      simp only [decide_eq_true_eq] at hc
      exact hc hue
    · have hv := List.find?_some hfind
      have hvm := List.mem_of_find?_eq_some hfind
      simp only [decide_eq_true_eq] at hv
      refine ⟨v, hvm, hv, ?_, ?_⟩
      · unfold assignSpeakerSpec
        rw [if_pos hpos, hfind]
        rfl
      · intro u2 hu2
        rw [hv]
        exact overlapDur_le_bestOv w hu2
  · norm_num [assign_speakers_to_words, speakerStep, overlapDur, c4exWord, c4exA, c4exB,
      max_def, min_def]

/-- C4 counterexample to the claim as stated: both turns overlap the word
[1, 2] by exactly 1/4 (also exact in binary floating point), only turn B
contains the word midpoint 3/2, yet the loop keeps the earliest-listed turn
A — the tie is not resolved by the midpoint rule the claim describes. -/
theorem C4_tie_not_broken_by_midpoint :
    overlapDur cexWord cexA = overlapDur cexWord cexB
    ∧ 0 < overlapDur cexWord cexA
    ∧ (cexB.start ≤ (cexWord.start + cexWord.stop) / 2
        ∧ (cexWord.start + cexWord.stop) / 2 ≤ cexB.stop)
    ∧ ¬(cexA.start ≤ (cexWord.start + cexWord.stop) / 2
        ∧ (cexWord.start + cexWord.stop) / 2 ≤ cexA.stop)
    ∧ assign_speakers_to_words [cexWord] [cexA, cexB] 0 10
        = [{ cexWord with speaker := some "A" }] := by
  refine ⟨?_, ?_, ?_, ?_, ?_⟩ <;>
    norm_num [assign_speakers_to_words, speakerStep, overlapDur, cexWord, cexA, cexB,
      max_def, min_def]

/-! ## C7: top-N selection -/

theorem ltCodes_asymm : ∀ l m : List Nat,
    ltCodes l m = true → ltCodes m l = true → False := by
  intro l
  induction l with
  | nil =>
      intro m h1 h2
      cases m with
      | nil => simp [ltCodes] at h1
      | cons b bs => simp [ltCodes] at h2
  | cons a as ih =>
      intro m h1 h2
      cases m with
      | nil => simp [ltCodes] at h1
      | cons b bs =>
          by_cases hab : a < b
          · have hba : ¬b < a := by omega
            simp [ltCodes, hab, hba] at h2
          · by_cases hba : b < a
            · simp [ltCodes, hab, hba] at h1
            · simp only [ltCodes, if_neg hab, if_neg hba] at h1 h2
              exact ih bs h1 h2

theorem ltCodes_trans : ∀ l m n : List Nat,
    ltCodes l m = true → ltCodes m n = true → ltCodes l n = true := by
  intro l
  induction l with
  | nil =>
      intro m n h1 h2
      cases m with
      | nil => simp [ltCodes] at h1
      | cons b bs =>
          cases n with
          | nil => simp [ltCodes] at h2
          | cons c cs => simp [ltCodes]
  | cons a as ih =>
      intro m n h1 h2
      cases m with
      | nil => simp [ltCodes] at h1
      | cons b bs =>
          cases n with
          | nil => simp [ltCodes] at h2
          | cons c cs =>
              by_cases hab : a < b
              · by_cases hbc : b < c
                · have hac : a < c := Nat.lt_trans hab hbc
                  simp [ltCodes, hac]
                · by_cases hcb : c < b
                  · simp [ltCodes, hbc, hcb] at h2
                  · have hbceq : b = c := by omega
                    subst hbceq
                    simp [ltCodes, hab]
              · by_cases hba : b < a
                · simp [ltCodes, hab, hba] at h1
                · have habeq : a = b := by omega
                  subst habeq
                  simp only [ltCodes, if_neg hab, lt_irrefl, if_neg (lt_irrefl a)] at h1
                  by_cases hac : a < c
                  · simp [ltCodes, hac]
                  · by_cases hca : c < a
                    · simp [ltCodes, hac, hca] at h2
                    · have haceq : a = c := by omega
                      subst haceq
                      simp only [ltCodes, lt_irrefl, if_neg (lt_irrefl a)] at h2 ⊢
                      exact ih bs cs h1 h2

theorem ltCodes_trichot : ∀ l m : List Nat,
    ltCodes l m = true ∨ l = m ∨ ltCodes m l = true := by
  intro l
  induction l with
  | nil =>
      intro m
      cases m with
      | nil => right; left; rfl
      | cons b bs => left; simp [ltCodes]
  | cons a as ih =>
      intro m
      cases m with
      | nil => right; right; simp [ltCodes]
      | cons b bs =>
          by_cases hab : a < b
          · left; simp [ltCodes, hab]
          · by_cases hba : b < a
            · right; right; simp [ltCodes, hba]
            · have habeq : a = b := by omega
              subst habeq
              rcases ih bs with h | h | h
              · left; simp [ltCodes, lt_irrefl, h]
              · right; left; rw [h]
              · right; right; simp [ltCodes, lt_irrefl, h]

theorem pyStrLe_total (a b : String) : pyStrLe a b = true ∨ pyStrLe b a = true := by
  unfold pyStrLe
  by_cases h : pyStrLt b a = true
  · right
    unfold pyStrLt at h ⊢
    by_cases h2 : ltCodes (codes a) (codes b) = true
    · exact absurd (ltCodes_asymm _ _ h2 h) (fun hc => hc)
    · simp [Bool.not_eq_true] at h2 ⊢
      exact h2
  · left
    simp only [Bool.not_eq_true] at h
    rw [h]
    rfl

theorem pyStrLe_trans (a b c : String) (h1 : pyStrLe a b = true)
    (h2 : pyStrLe b c = true) : pyStrLe a c = true := by
  unfold pyStrLe pyStrLt at h1 h2 ⊢
  simp only [Bool.not_eq_true'] at h1 h2 ⊢
  by_contra hc
  have hca : ltCodes (codes c) (codes a) = true := by
    cases hq : ltCodes (codes c) (codes a) with
    | false => exact absurd hq hc
    | true => rfl
  rcases ltCodes_trichot (codes c) (codes b) with h | h | h
  · rw [h] at h2; cases h2
  · rw [h] at hca; rw [hca] at h1; cases h1
  · have := ltCodes_trans _ _ _ h hca
    rw [this] at h1
    cases h1

theorem scoreNullLT_trans : ∀ x y z : Option ℤ,
    scoreNullLT x y → scoreNullLT y z → scoreNullLT x z := by
  intro x y z h1 h2
  rcases x with _ | a <;> rcases y with _ | b <;> rcases z with _ | c <;>
    simp [scoreNullLT] at * <;> omega

instance : IsTotal RRow sqliteLE := by
  constructor
  intro a b
  unfold sqliteLE
  rcases ha : a.viral_score with _ | x <;> rcases hb : b.viral_score with _ | y
  · rcases pyStrLe_total a.updated_at b.updated_at with h | h
    · exact Or.inl (Or.inr ⟨rfl, h⟩)
    · exact Or.inr (Or.inr ⟨rfl, h⟩)
  · exact Or.inr (Or.inl trivial)
  · exact Or.inl (Or.inl trivial)
  · rcases lt_trichotomy x y with h | h | h
    · exact Or.inr (Or.inl h)
    · subst h
      rcases pyStrLe_total a.updated_at b.updated_at with h2 | h2
      · exact Or.inl (Or.inr ⟨rfl, h2⟩)
      · exact Or.inr (Or.inr ⟨rfl, h2⟩)
    · exact Or.inl (Or.inl h)

instance : IsTrans RRow sqliteLE := by
  constructor
  intro a b c hab hbc
  unfold sqliteLE at hab hbc ⊢
  rcases hab with h1 | ⟨e1, l1⟩ <;> rcases hbc with h2 | ⟨e2, l2⟩
  · exact Or.inl (scoreNullLT_trans _ _ _ h2 h1)
  · rw [← e2]
    exact Or.inl h1
  · rw [e1]
    exact Or.inl h2
  · exact Or.inr ⟨e1.trans e2, pyStrLe_trans _ _ _ l1 l2⟩

theorem sqliteLE_to_specLe {a b : RRow}
    (ha : ∀ s, a.viral_score = some s → 1 ≤ s)
    (hb : ∀ s, b.viral_score = some s → 1 ≤ s)
    (h : sqliteLE a b) : specLe a b := by
  unfold sqliteLE at h
  unfold specLe scoreVal
  rcases h with h | ⟨e, l⟩
  · left
    rcases hsa : a.viral_score with _ | x <;> rcases hsb : b.viral_score with _ | y
    · rw [hsa, hsb] at h
      simp [scoreNullLT] at h
    · rw [hsa, hsb] at h
      simp [scoreNullLT] at h
    · simp only [hsa, hsb, Option.getD_some, Option.getD_none]
      have := ha x hsa
      omega
    · rw [hsa, hsb] at h
      simp only [hsa, hsb, Option.getD_some]
      simpa [scoreNullLT] using h
  · right
    exact ⟨by rw [e], l⟩

/-- C7: among the RENDERED rows, the sort is by viral_score descending with
NULL below every stored score (stored scores are at least 1, so this is the
nulls-as-0 order of the spec), ties by ascending updated_at; with at most N
rows nothing changes, otherwise exactly the rows past the first N of that
order are set to FAILED with reason cut:below_top_n while the first N are
kept untouched. On the §8 example [9,7,7,5,2] with N=3 the two 7s are kept
in updated_at order and the 5 and 2 are demoted. -/
theorem C7_select_top_clips :
    (∀ (rendered : List RRow) (n : Nat),
      (rendered.length ≤ n → select_top_clips rendered n = rendered)
      ∧ ((∀ r ∈ rendered, ∀ s, r.viral_score = some s → 1 ≤ s) →
          (List.insertionSort sqliteLE rendered).Pairwise specLe)
      ∧ (List.insertionSort sqliteLE rendered).Perm rendered
      ∧ (n < rendered.length →
          select_top_clips rendered n
            = (List.insertionSort sqliteLE rendered).take n
              ++ ((List.insertionSort sqliteLE rendered).drop n).map demoteRow)
      ∧ (∀ r, (demoteRow r).status = FAILED
          ∧ (demoteRow r).fail_reason = some "cut:below_top_n"
          ∧ (demoteRow r).id = r.id ∧ (demoteRow r).viral_score = r.viral_score))
    ∧ select_top_clips c7rows 3
        = [{ id := 1, viral_score := some 9, updated_at := "t1" },
           { id := 3, viral_score := some 7, updated_at := "t2" },
           { id := 2, viral_score := some 7, updated_at := "t3" },
           demoteRow { id := 4, viral_score := some 5, updated_at := "t4" },
           demoteRow { id := 5, viral_score := some 2, updated_at := "t5" }] := by
  constructor
  · intro rendered n
    refine ⟨?_, ?_, ?_, ?_, ?_⟩
    · intro h
      unfold select_top_clips
      rw [if_pos h]
    · intro hs
      have hsorted := List.sorted_insertionSort sqliteLE rendered
      have hperm := List.perm_insertionSort sqliteLE rendered
      refine List.Pairwise.imp_of_mem ?_ hsorted
      intro a b hma hmb hr
      exact sqliteLE_to_specLe (hs a (hperm.subset hma)) (hs b (hperm.subset hmb)) hr
    · exact List.perm_insertionSort sqliteLE rendered
    · intro h
      unfold select_top_clips
      rw [if_neg (not_le.2 h)]
    · intro r
      exact ⟨rfl, rfl, rfl, rfl⟩
  · decide

/-! ## C1: the clip state machine -/

/-- C1: every stage entry point either leaves the stored status unchanged
or moves it along VALID_TRANSITIONS (one step forward or sideways into
FAILED); PACKAGED and FAILED have no outbound transitions, in the table and
in behaviour; and a stage invoked on a clip whose stored status is not the
stage input status leaves the row entirely unchanged (a no-op, not an
error). -/
theorem C1_state_machine :
    (∀ (call : StageCall) (c : Clip),
        (runStage call c).status = c.status
          ∨ (runStage call c).status ∈ VALID_TRANSITIONS c.status)
    ∧ VALID_TRANSITIONS PACKAGED = [] ∧ VALID_TRANSITIONS FAILED = []
    ∧ (∀ (call : StageCall) (c : Clip),
        c.status ≠ expectedStatus call → runStage call c = c)
    ∧ (∀ (call : StageCall) (c : Clip),
        c.status = PACKAGED ∨ c.status = FAILED → runStage call c = c) := by
  have hno : ∀ (call : StageCall) (c : Clip),
      c.status ≠ expectedStatus call → runStage call c = c := by
    intro call c h
    cases call with
    | download f =>
        simp only [expectedStatus] at h
        simp only [runStage]
        unfold download_clip
        rw [if_neg h]
    | transcribe rules o =>
        simp only [expectedStatus] at h
        simp only [runStage]
        unfold transcribe_clip
        rw [if_neg h]
    | decide env =>
        simp only [expectedStatus] at h
        simp only [runStage]
        unfold decide_clip
        rw [if_neg h]
    | render o =>
        simp only [expectedStatus] at h
        simp only [runStage]
        unfold render_clip
        rw [if_neg h]
    | package o =>
        simp only [expectedStatus] at h
        simp only [runStage]
        unfold package_clip
        rw [if_neg h]
  refine ⟨?_, rfl, rfl, hno, ?_⟩
  · intro call c
    by_cases hs : c.status = expectedStatus call
    · cases call with
      | download f =>
          simp only [expectedStatus] at hs
          simp only [runStage]
          unfold download_clip
          rw [if_pos hs]
          right
          rw [hs]
          cases f <;> simp [VALID_TRANSITIONS]
      | transcribe rules o =>
          simp only [expectedStatus] at hs
          simp only [runStage]
          unfold transcribe_clip
          rw [if_pos hs]
          right
          rw [hs]
          cases o with
          | sourceMissing => simp [VALID_TRANSITIONS]
          | transcribeError e => simp [VALID_TRANSITIONS]
          | ok t =>
              dsimp only
              split <;> simp [VALID_TRANSITIONS]
      | decide env =>
          simp only [expectedStatus] at hs
          simp only [runStage]
          unfold decide_clip
          rw [if_pos hs]
          right
          rw [hs]
          cases htr : env.transcript with
          | none => simp [VALID_TRANSITIONS]
          | some t =>
              dsimp only
              split
              · simp [VALID_TRANSITIONS]
              · cases hllm : env.llm with
                | none => simp [VALID_TRANSITIONS]
                | some r =>
                    dsimp only
                    split
                    · simp [VALID_TRANSITIONS]
                    · split
                      · simp [VALID_TRANSITIONS]
                      · cases hbe : r.build_error with
                        | some e => simp [VALID_TRANSITIONS]
                        | none => simp [VALID_TRANSITIONS]
      | render o =>
          simp only [expectedStatus] at hs
          simp only [runStage]
          unfold render_clip
          rw [if_pos hs]
          cases o with
          | sourceMissing => left; rfl
          | decisionMissing => left; rfl
          | allAttemptsFailed => right; rw [hs]; simp [VALID_TRANSITIONS]
          | outputInvalid => right; rw [hs]; simp [VALID_TRANSITIONS]
          | rendered p => right; rw [hs]; simp [VALID_TRANSITIONS]
      | package o =>
          simp only [expectedStatus] at hs
          simp only [runStage]
          unfold package_clip
          rw [if_pos hs]
          cases o with
          | renderedMissing => left; rfl
          | packaged d => right; rw [hs]; simp [VALID_TRANSITIONS]
    · left
      rw [hno call c hs]
  · intro call c h
    apply hno
    rcases h with h | h <;> rw [h] <;> cases call <;> simp [expectedStatus]
